import Mathlib

/-
Shallow embedding of the finAgentEx stock-dashboard frontend.

The embedding covers:
* the D3 candlestick chart component (CustomCandlestickChart): its data model
  (interface OHLCVItem, interface NewsItem), the fetch effect, the d3.scaleBand
  geometry with padding 0.3, the price scale domain, the moving-average overlay
  construction (drawMALine), the per-bar hit areas, the news click handler
  (handleDateClick), and the hover readout branches;
* the lightweight-charts variant (CandlestickChart.tsx): its hover readout
  branches;
* the portfolio news list (PortfolioNews): mergeNews.

Numbers are modelled as rationals; JavaScript string comparison
(localeCompare on ISO date strings) is modelled as code-point lexicographic
comparison of the underlying character lists.
-/

/-- One OHLCV bar as delivered to the D3 chart (source: interface OHLCVItem in
the CustomCandlestickChart file). The source field named open is called
open_ here because open is a Lean keyword. -/
structure OHLCVItem where
  time : String
  open_ : ℚ
  high : ℚ
  low : ℚ
  close : ℚ
  volume : ℚ
  ma5 : Option ℚ
  ma20 : Option ℚ
  ma60 : Option ℚ
  ma120 : Option ℚ
  vol_ma5 : Option ℚ
  vol_ma20 : Option ℚ
  vol_ma60 : Option ℚ
  vol_ma120 : Option ℚ
  close_change_pct : Option ℚ
  volume_change_pct : Option ℚ
deriving DecidableEq, Repr

/-- One news item as delivered with the bar series (source: interface NewsItem
in the chart components). -/
structure NewsItem where
  title : String
  summary : String
  url : Option String
  pubDate : String
deriving DecidableEq, Repr

/-- One portfolio news item (source: interface NewsItem in PortfolioNews,
which additionally carries an id and tickers). -/
structure PortfolioNewsItem where
  id : String
  title : String
  summary : String
  pubDate : String
  url : Option String
  tickers : List String
deriving DecidableEq, Repr

/-- The React component state of the D3 chart, plus the container width read
by the draw effect and the ticker prop (both participate in the behaviours
under study). Mirrors the useState hooks of CustomCandlestickChart. -/
structure ChartState where
  ticker : String
  period : String
  data : List OHLCVItem
  news : List NewsItem
  loading : Bool
  error : String
  hoveredData : Option OHLCVItem
  selectedDate : Option String
  selectedNews : List NewsItem
  loadingNews : Bool
  width : ℚ
deriving DecidableEq

/-- The parsed JSON body of a response to GET /api/ohlcv. -/
structure FetchResult where
  success : Bool
  data : List OHLCVItem
  news : List NewsItem
  error : String
deriving DecidableEq

/-- Start of the fetch effect: setLoading(true); setError(''). -/
def fetchStart (s : ChartState) : ChartState :=
  { s with loading := true, error := "" }

/-- Body of fetchData after the response arrives: on success store data and
news wholesale; otherwise set the error message; finally setLoading(false).
No field of the response is validated. -/
def applyFetchResult (s : ChartState) (r : FetchResult) : ChartState :=
  if r.success then
    { s with data := r.data, news := r.news, loading := false }
  else
    { s with error := if r.error = "" then "Failed to fetch data" else r.error,
             loading := false }

/-- One full run of the fetchData effect. -/
def fetchCycle (s : ChartState) (r : FetchResult) : ChartState :=
  applyFetchResult (fetchStart s) r

/-- Whether the chart SVG is actually drawn for a state: the component must not
be in the loading or error early-return branches, and the draw effect returns
early when data.length === 0. -/
def rendersChart (s : ChartState) : Bool :=
  !s.loading && decide (s.error = "") && !s.data.isEmpty

/-- The bar invariant the spec calls MalformedBar-free: the low is at or below
both open and close, the high at or above both. -/
def ValidBar (b : OHLCVItem) : Prop :=
  b.low ≤ b.open_ ∧ b.low ≤ b.close ∧ b.open_ ≤ b.high ∧ b.close ≤ b.high

/-- The dependency array of the draw-chart useEffect: [data, handleDateClick].
handleDateClick is a useCallback with dependency array [news, ticker], so its
identity is determined by (news, ticker). -/
def drawDeps (s : ChartState) : List OHLCVItem × List NewsItem × String :=
  (s.data, s.news, s.ticker)

/-- Whether moving from state s to state s2 re-runs the draw effect and
reaches the full clear-and-redraw (selectAll removal plus rebuild): the
dependency array must have changed and the guard of the effect must pass. -/
def fullRedrawTriggered (s s2 : ChartState) : Bool :=
  decide (drawDeps s ≠ drawDeps s2) && rendersChart s2

/-- The state of the news panel driven by handleDateClick. -/
structure NewsPanelState where
  selectedDate : Option String
  selectedNews : List NewsItem
  loadingNews : Bool
deriving DecidableEq, Repr

/-- The synchronous outcome of handleDateClick: the resulting panel state and
the list of fallback requests issued, each keyed by (ticker, date). -/
structure ClickOutcome where
  state : NewsPanelState
  requests : List (String × String)
deriving DecidableEq, Repr

/-- handleDateClick from the D3 chart: set the selected date, enter the
loading state with an emptied list, then either surface the locally matched
news with no request, or issue exactly one fallback request. -/
def handleDateClick (ticker : String) (news : List NewsItem) (date : String) :
    ClickOutcome :=
  let matched := news.filter fun n => n.pubDate == date
  if matched.length > 0 then
    { state := ⟨some date, matched, false⟩, requests := [] }
  else
    { state := ⟨some date, [], true⟩, requests := [(ticker, date)] }

/-- An event delivered to the news panel: a click on a bar, or the completion
of a previously issued fallback request (reqDate names the date that request
was issued for). -/
inductive NewsEvent where
  | click (date : String)
  | response (reqDate : String) (success : Bool) (items : List NewsItem)
deriving DecidableEq

/-- One step of the news panel. A click runs handleDateClick. A response runs
the continuation of the fallback fetch: if result.success then
setSelectedNews(result.news) - unconditionally, with no check that the
response belongs to the currently selected date - and finally
setLoadingNews(false). -/
def newsStep (ticker : String) (news : List NewsItem) (s : NewsPanelState)
    (e : NewsEvent) : NewsPanelState × List (String × String) :=
  match e with
  | .click d => ((handleDateClick ticker news d).state,
                 (handleDateClick ticker news d).requests)
  | .response _ success items =>
      ({ s with selectedNews := if success then items else s.selectedNews,
                loadingNews := false }, [])

/-- Folding a sequence of news-panel events from a start state. -/
def newsRun (ticker : String) (news : List NewsItem) (s : NewsPanelState)
    (es : List NewsEvent) : NewsPanelState :=
  es.foldl (fun st e => (newsStep ticker news st e).1) s

/-- The points the drawMALine helper hands to the d3 line generator for one
moving-average key: the bars are filtered to those whose value under the key
is non-null, and each survivor contributes one point at its band position.
The first component is the bar index (which determines the x position through
the band scale), the second the moving-average value (the y position). -/
def maLinePoints (vals : List (Option ℚ)) : List (ℕ × ℚ) :=
  vals.enum.filterMap fun p => p.2.map fun x => (p.1, x)

/-- The straight-line segments of the single path drawn by drawMALine: the d3
line generator connects each point of its datum to the next. -/
def maSegments (vals : List (Option ℚ)) : List ((ℕ × ℚ) × (ℕ × ℚ)) :=
  (maLinePoints vals).zip (maLinePoints vals).tail

/-- The padding constant of the band scale: d3.scaleBand().padding(0.3) sets
paddingInner = paddingOuter = 0.3. -/
def bandPadding : ℚ := 3/10

/-- The step of the d3 band scale (distance between consecutive band starts),
per the d3 formula step = (stop - start) / max(1, n - paddingInner +
paddingOuter * 2) with align 0.5 and no rounding. -/
def bandStep (n : ℕ) (r0 r1 : ℚ) : ℚ :=
  (r1 - r0) / max 1 ((n : ℚ) - bandPadding + bandPadding * 2)

/-- The position of the first band, per the d3 formula
start + (stop - start - step * (n - paddingInner)) * align with align 0.5. -/
def bandStart (n : ℕ) (r0 r1 : ℚ) : ℚ :=
  r0 + ((r1 - r0) - bandStep n r0 r1 * ((n : ℚ) - bandPadding)) * (1/2)

/-- The x position of band i of the d3 band scale. -/
def bandX (n : ℕ) (r0 r1 : ℚ) (i : ℕ) : ℚ :=
  bandStart n r0 r1 + bandStep n r0 r1 * (i : ℚ)

/-- d3 bandwidth: step * (1 - paddingInner). -/
def bandwidth (n : ℕ) (r0 r1 : ℚ) : ℚ :=
  bandStep n r0 r1 * (1 - bandPadding)

/-- The chart margins are fixed constants in the draw effect:
margin = \x7b top: 20, right: 60, bottom: 30, left: 60 \x7d. -/
def marginLeft : ℚ := 60

/-- Right margin constant of the draw effect. -/
def marginRight : ℚ := 60

/-- Left edge of the plot area: the band scale range starts at margin.left. -/
def plotLeft : ℚ := marginLeft

/-- Right edge of the plot area: the band scale range ends at
width - margin.right. -/
def plotRight (width : ℚ) : ℚ := width - marginRight

/-- candleWidth = xScale.bandwidth() for a series of n bars drawn at the given
container width. -/
def candleWidth (n : ℕ) (width : ℚ) : ℚ :=
  bandwidth n plotLeft (plotRight width)

/-- Left x of hit area i: xScale(d.time) - candleWidth * 0.2. -/
def hitX (n : ℕ) (width : ℚ) (i : ℕ) : ℚ :=
  bandX n plotLeft (plotRight width) i - candleWidth n width * (2/10)

/-- Width of every hit area: candleWidth * 1.4. -/
def hitW (n : ℕ) (width : ℚ) : ℚ :=
  candleWidth n width * (14/10)

/-- The hit-area rectangles built by the draw effect, one per bar, as
(x, width) pairs in bar order. -/
def hitRects (n : ℕ) (width : ℚ) : List (ℚ × ℚ) :=
  (List.range n).map fun i => (hitX n width i, hitW n width)

/-- d3.min over a list of numbers: a fold that keeps the least value seen,
returning none on an empty list (d3 returns undefined there). -/
def d3min (l : List ℚ) : Option ℚ :=
  l.foldl (fun acc x => match acc with
    | none => some x
    | some m => some (min m x)) none

/-- d3.max over a list of numbers, dually. -/
def d3max (l : List ℚ) : Option ℚ :=
  l.foldl (fun acc x => match acc with
    | none => some x
    | some m => some (max m x)) none

/-- The domain of yPriceScale:
[d3.min(chartData, d => d.low)! * 0.98, d3.max(chartData, d => d.high)! * 1.02].
The draw effect only builds the scale when data is non-empty, hence the
Option. -/
def priceDomain (data : List OHLCVItem) : Option (ℚ × ℚ) :=
  match d3min (data.map fun d => d.low), d3max (data.map fun d => d.high) with
  | some lo, some hi => some (lo * (98/100), hi * (102/100))
  | _, _ => none

/-- mergeNews from PortfolioNews: drop incoming items whose id is already
present, return the previous list unchanged when nothing new survives, and
otherwise append the survivors and re-sort the whole list by pubDate
descending (the source comparator b.pubDate.localeCompare(a.pubDate),
modelled as lexicographic comparison of the character lists; the JS sort is
stable, as is mergeSort). -/
def mergeNews (prev newItems : List PortfolioNewsItem) :
    List PortfolioNewsItem :=
  let existingIds := prev.map fun n => n.id
  let unique := newItems.filter fun n => !(existingIds.contains n.id)
  if unique.length = 0 then prev
  else (prev ++ unique).mergeSort fun a b => decide (b.pubDate.data ≤ a.pubDate.data)

/-- The accumulated portfolio news list is sorted by pubDate descending. -/
def SortedByDateDesc (l : List PortfolioNewsItem) : Prop :=
  l.Pairwise fun a b => b.pubDate.data ≤ a.pubDate.data

/-- What one moving-average slot of a hover readout panel displays: the
missing-value marker or a numeric value (the numeric formatting - toFixed,
formatVolume - is elided; only which branch is taken matters here). -/
inductive MAReadout where
  | dash
  | shown (x : ℚ)
deriving DecidableEq, Repr

/-- JavaScript truthiness of a number|null value: null and 0 are falsy. -/
def jsTruthy (v : Option ℚ) : Bool :=
  match v with
  | none => false
  | some x => decide (x ≠ 0)

/-- Price-MA slot of the D3 chart hover panel: rendered with nullish
coalescing, hoveredData.ma5 ?? the dash marker, so only null becomes the
marker. -/
def d3PriceMAReadout (v : Option ℚ) : MAReadout :=
  match v with
  | none => .dash
  | some x => .shown x

/-- Volume-MA slot of the D3 chart hover panel: rendered with a truthiness
test, hoveredData.vol_ma5 ? formatVolume(hoveredData.vol_ma5) : the dash
marker. -/
def d3VolMAReadout (v : Option ℚ) : MAReadout :=
  if jsTruthy v then .shown (v.getD 0) else .dash

/-- Price-MA slot of the lightweight-charts variant hover panel: rendered
with a truthiness test, hoveredData.ma5 ? dollar-prefixed value : the dash
marker. -/
def lwPriceMAReadout (v : Option ℚ) : MAReadout :=
  if jsTruthy v then .shown (v.getD 0) else .dash

/-- Volume-MA slot of the lightweight-charts variant hover panel: rendered
with a truthiness test, hoveredData.vol_ma5 ? formatVolume(...) : the dash
marker. -/
def lwVolMAReadout (v : Option ℚ) : MAReadout :=
  if jsTruthy v then .shown (v.getD 0) else .dash

/-- The crosshair line as built by each run of the draw effect: created with
opacity 0 and no x position until a hit area is entered. -/
structure CrosshairState where
  opacity : ℚ
  x : Option ℚ
deriving DecidableEq

/-- The crosshair immediately after a (re)draw: style opacity 0, x unset. -/
def initialCrosshair : CrosshairState := ⟨0, none⟩

/-- Index-carrying recursion equivalent to maLinePoints, used in proofs: the
first argument is the index of the first entry of the remaining list. -/
def maPointsAux : ℕ → List (Option ℚ) → List (ℕ × ℚ)
  | _, [] => []
  | i, none :: t => maPointsAux (i + 1) t
  | i, some x :: t => (i, x) :: maPointsAux (i + 1) t

/-- First bar of the worked example in the spec:
\x7btime:"2024-01-02",o:100,h:105,l:99,c:104,v:1000\x7d. -/
def exBar1 : OHLCVItem :=
  ⟨"2024-01-02", 100, 105, 99, 104, 1000,
   none, none, none, none, none, none, none, none, none, none⟩

/-- Second bar of the worked example in the spec:
\x7btime:"2024-01-03",o:104,h:106,l:101,c:102,v:1500\x7d. -/
def exBar2 : OHLCVItem :=
  ⟨"2024-01-03", 104, 106, 101, 102, 1500,
   none, none, none, none, none, none, none, none, none, none⟩

/-- The spec's two-bar example series. -/
def exSeries : List OHLCVItem := [exBar1, exBar2]

/-- A malformed bar whose high (95) is below its low (99). -/
def badBar : OHLCVItem :=
  ⟨"2024-01-02", 100, 95, 99, 100, 1000,
   none, none, none, none, none, none, none, none, none, none⟩

/-- A chart state as it stands while the first load is in flight. -/
def loadingState : ChartState :=
  ⟨"AAPL", "6mo", [], [], true, "", none, none, [], false, 800⟩

/-- A successful /api/ohlcv response carrying only the malformed bar. -/
def badResponse : FetchResult := ⟨true, [badBar], [], ""⟩

/-- A news item dated 2024-01-02. -/
def newsA : NewsItem := ⟨"titleA", "summaryA", none, "2024-01-02"⟩

/-- A news item dated 2024-01-03. -/
def newsB : NewsItem := ⟨"titleB", "summaryB", none, "2024-01-03"⟩

/-- A ready chart state showing the example series. -/
def readyState : ChartState :=
  ⟨"AAPL", "6mo", [exBar1], [], false, "", none, none, [], false, 800⟩

/-- readyState after only the container width changed. -/
def readyStateResized : ChartState := { readyState with width := 400 }

/-- readyState after only the news list changed. -/
def readyStateNewNews : ChartState := { readyState with news := [newsA] }

/-- A ready chart state with a hovered bar and a selected date. -/
def interactedState : ChartState :=
  ⟨"AAPL", "6mo", [exBar1], [], false, "", some exBar1, some "2024-01-02",
   [], false, 800⟩

/-- A successful response replacing the series with a different bar. -/
def replacementResponse : FetchResult := ⟨true, [exBar2], [], ""⟩

/-- Two portfolio news items sharing the id "id1". -/
def pnDup1 : PortfolioNewsItem := ⟨"id1", "t1", "s1", "2024-01-02", none, []⟩

/-- Second portfolio news item with the duplicated id "id1". -/
def pnDup2 : PortfolioNewsItem := ⟨"id1", "t2", "s2", "2024-01-03", none, []⟩

/-- A portfolio news item with id "id9". -/
def pnOld : PortfolioNewsItem := ⟨"id9", "t9", "s9", "2024-01-05", none, []⟩

/-
Theorems. Helper lemmas come first, then one theorem per claim (with a
witness or counterexample where called for).
-/

theorem enumFrom_filterMap_ma (i : ℕ) (vals : List (Option ℚ)) :
    (List.enumFrom i vals).filterMap (fun p => p.2.map fun x => (p.1, x)) =
      maPointsAux i vals := by
  induction vals generalizing i with
  | nil => rfl
  | cons v t ih =>
    cases v with
    | none => simp [List.enumFrom_cons, List.filterMap_cons, maPointsAux, ih]
    | some x => simp [List.enumFrom_cons, List.filterMap_cons, maPointsAux, ih]

theorem maLinePoints_eq (vals : List (Option ℚ)) :
    maLinePoints vals = maPointsAux 0 vals := by
  unfold maLinePoints
  exact enumFrom_filterMap_ma 0 vals

theorem maPointsAux_index_ge (i : ℕ) (vals : List (Option ℚ)) :
    ∀ p ∈ maPointsAux i vals, i ≤ p.1 := by
  induction vals generalizing i with
  | nil => intro p hp; cases hp
  | cons v t ih =>
    intro p hp
    cases v with
    | none =>
      exact le_trans (Nat.le_succ i) (ih (i + 1) p hp)
    | some x =>
      rcases List.mem_cons.mp hp with h | h
      · subst h; exact le_refl i
      · exact le_trans (Nat.le_succ i) (ih (i + 1) p h)

theorem maPointsAux_get (i : ℕ) (vals : List (Option ℚ)) (j : ℕ) (x : ℚ)
    (h : (j, x) ∈ maPointsAux i vals) :
    vals.get? (j - i) = some (some x) := by
  induction vals generalizing i with
  | nil => cases h
  | cons v t ih =>
    cases v with
    | none =>
      have hj : i + 1 ≤ j := maPointsAux_index_ge (i + 1) t (j, x) h
      have ht := ih (i + 1) h
      rw [show j - i = (j - (i + 1)) + 1 by omega]
      simpa using ht
    | some x0 =>
      rcases List.mem_cons.mp h with h0 | h0
      · injection h0 with h1 h2
        subst h1; subst h2
        rw [Nat.sub_self]
        rfl
      · have hj : i + 1 ≤ j := maPointsAux_index_ge (i + 1) t (j, x) h0
        have ht := ih (i + 1) h0
        rw [show j - i = (j - (i + 1)) + 1 by omega]
        simpa using ht

theorem maPointsAux_before_head (i : ℕ) (vals : List (Option ℚ))
    (q : ℕ × ℚ) (rest : List (ℕ × ℚ)) (h : maPointsAux i vals = q :: rest) :
    ∀ k, k < q.1 - i → vals.get? k = some none := by
  induction vals generalizing i with
  | nil => exact absurd h (by simp [maPointsAux])
  | cons v t ih =>
    cases v with
    | none =>
      have h2 : maPointsAux (i + 1) t = q :: rest := h
      have hq : i + 1 ≤ q.1 :=
        maPointsAux_index_ge (i + 1) t q (h2 ▸ List.mem_cons_self q rest)
      intro k hk
      match k with
      | 0 => rfl
      | k + 1 =>
        have hk2 : k < q.1 - (i + 1) := by omega
        simpa using ih (i + 1) h2 k hk2
    | some x =>
      have hq : q = (i, x) := by
        have := List.cons.injEq (i, x) (maPointsAux (i + 1) t) q rest
        simp [maPointsAux] at h
        exact h.1.symm
      intro k hk
      rw [hq] at hk
      omega

theorem maPointsAux_consecutive (i : ℕ) (vals : List (Option ℚ)) :
    ∀ p q : ℕ × ℚ,
      (p, q) ∈ (maPointsAux i vals).zip (maPointsAux i vals).tail →
      p.1 < q.1 ∧ ∀ k, p.1 < k → k < q.1 → vals.get? (k - i) = some none := by
  induction vals generalizing i with
  | nil => intro p q h; cases h
  | cons v t ih =>
    intro p q h
    cases v with
    | none =>
      have h2 := h
      have hih := ih (i + 1) p q h2
      have hp : p ∈ maPointsAux (i + 1) t := (List.of_mem_zip h2).1
      have hpi : i + 1 ≤ p.1 := maPointsAux_index_ge (i + 1) t p hp
      refine ⟨hih.1, fun k hk1 hk2 => ?_⟩
      have hk3 : i + 1 ≤ k := by omega
      rw [show k - i = (k - (i + 1)) + 1 by omega]
      simpa using hih.2 k hk1 hk2
    | some x =>
      have hx : maPointsAux i (some x :: t) = (i, x) :: maPointsAux (i + 1) t := rfl
      rw [hx] at h
      cases hps : maPointsAux (i + 1) t with
      | nil =>
        rw [hps] at h
        simp at h
      | cons q0 rest =>
        rw [hps] at h
        have htail : (((i, x) :: q0 :: rest).tail) = q0 :: rest := rfl
        rw [htail, List.zip_cons_cons] at h
        rcases List.mem_cons.mp h with h0 | h0
        · injection h0 with h1 h2
          have hq0 : i + 1 ≤ q0.1 :=
            maPointsAux_index_ge (i + 1) t q0 (hps ▸ List.mem_cons_self q0 rest)
          refine ⟨by rw [h1, h2]; exact lt_of_lt_of_le (Nat.lt_succ_self i) hq0, fun k hk1 hk2 => ?_⟩
          rw [h1] at hk1
          rw [h2] at hk2
          have hk1i : i < k := hk1
          have hk3 : i + 1 ≤ k := by omega
          rw [show k - i = (k - (i + 1)) + 1 by omega]
          have hlt : k - (i + 1) < q0.1 - (i + 1) := by omega
          simpa using maPointsAux_before_head (i + 1) t q0 rest hps (k - (i + 1)) hlt
        · have h3 : (p, q) ∈ (maPointsAux (i + 1) t).zip (maPointsAux (i + 1) t).tail := by
            rw [hps]
            exact h0
          have hih := ih (i + 1) p q h3
          have hp : p ∈ maPointsAux (i + 1) t := (List.of_mem_zip h3).1
          have hpi : i + 1 ≤ p.1 := maPointsAux_index_ge (i + 1) t p hp
          refine ⟨hih.1, fun k hk1 hk2 => ?_⟩
          rw [show k - i = (k - (i + 1)) + 1 by omega]
          simpa using hih.2 k hk1 hk2

/-- C1 counterexample: for the value sequence [5, null, 7] the drawMALine
helper filters the nulls away and hands d3.line one datum containing both
surviving points, so the drawn path has exactly one segment, and that segment
runs from bar 0 to bar 2 across the null at bar 1 - one connected line, not
two disjoint single-point runs. -/
theorem c1_counterexample :
    maSegments [some (5 : ℚ), none, some 7] = [((0, 5), (2, 7))] ∧
    [some (5 : ℚ), none, some 7].get? 1 = some none := by
  constructor <;> rfl

/-- C1 amended: every segment drawn by a moving-average overlay connects two
non-null values at strictly increasing bar indices such that every bar
strictly between them is null; in particular a null value does not break the
line - the overlay interpolates straight across maximal null runs. -/
theorem c1_amended (vals : List (Option ℚ)) (p q : ℕ × ℚ)
    (h : (p, q) ∈ maSegments vals) :
    p.1 < q.1 ∧ vals.get? p.1 = some (some p.2) ∧
    vals.get? q.1 = some (some q.2) ∧
    ∀ k, p.1 < k → k < q.1 → vals.get? k = some none := by
  unfold maSegments at h
  rw [maLinePoints_eq] at h
  have hcons2 := maPointsAux_consecutive 0 vals p q h
  have hp : p ∈ maPointsAux 0 vals := (List.of_mem_zip h).1
  have hq : q ∈ maPointsAux 0 vals :=
    (List.tail_sublist (maPointsAux 0 vals)).mem ((List.of_mem_zip h).2)
  have hgp := maPointsAux_get 0 vals p.1 p.2 (by simpa using hp)
  have hgq := maPointsAux_get 0 vals q.1 q.2 (by simpa using hq)
  refine ⟨hcons2.1, by simpa using hgp, by simpa using hgq, fun k h1 h2 => ?_⟩
  simpa using hcons2.2 k h1 h2

/-- C1 witness: the amended statement applied to the [5, null, 7] run and its
single drawn segment. -/
theorem c1_amended_witness :
    (0 : ℕ) < 2 ∧
    [some (5 : ℚ), none, some 7].get? 0 = some (some 5) ∧
    [some (5 : ℚ), none, some 7].get? 2 = some (some 7) ∧
    ∀ k, 0 < k → k < 2 → [some (5 : ℚ), none, some 7].get? k = some none :=
  c1_amended [some 5, none, some 7] (0, 5) (2, 7) (by decide)

/-- C10: in the hover readouts, a moving-average value equal to 0 renders the
missing-value marker exactly like null does, in the volume-MA slots of the D3
chart and in both the price-MA and volume-MA slots of the lightweight-charts
variant, because those slots test truthiness; the D3 price-MA slots use
nullish coalescing and do display 0. -/
theorem c10_zero_renders_dash (x : ℚ) :
    (d3VolMAReadout (some x) = .dash ↔ x = 0) ∧
    d3VolMAReadout none = .dash ∧
    (lwPriceMAReadout (some x) = .dash ↔ x = 0) ∧
    (lwVolMAReadout (some x) = .dash ↔ x = 0) ∧
    lwPriceMAReadout none = .dash ∧
    lwVolMAReadout none = .dash ∧
    d3PriceMAReadout (some x) = .shown x := by
  unfold d3VolMAReadout lwPriceMAReadout lwVolMAReadout d3PriceMAReadout jsTruthy
  by_cases hx : x = 0 <;> simp [hx]

theorem bandStep_arg (n : ℕ) :
    (n : ℚ) - bandPadding + bandPadding * 2 = (n : ℚ) + 3/10 := by
  unfold bandPadding; ring

theorem bandStep_eq (n : ℕ) (r0 r1 : ℚ) (hn : 1 ≤ n) :
    bandStep n r0 r1 = (r1 - r0) / ((n : ℚ) + 3/10) := by
  unfold bandStep
  rw [bandStep_arg]
  congr 1
  refine max_eq_right ?_
  have h1 : (1 : ℚ) ≤ (n : ℚ) := by exact_mod_cast hn
  linarith

theorem bandStep_pos (n : ℕ) (r0 r1 : ℚ) (hn : 1 ≤ n) (h : r0 < r1) :
    0 < bandStep n r0 r1 := by
  rw [bandStep_eq n r0 r1 hn]
  have h0 : (0 : ℚ) ≤ (n : ℚ) := Nat.cast_nonneg n
  exact div_pos (by linarith) (by linarith)

theorem bandStep_mul (n : ℕ) (r0 r1 : ℚ) (hn : 1 ≤ n) :
    bandStep n r0 r1 * ((n : ℚ) + 3/10) = r1 - r0 := by
  rw [bandStep_eq n r0 r1 hn]
  have hpos : (0 : ℚ) < (n : ℚ) + 3/10 := by positivity
  field_simp

theorem hitX_eq (n : ℕ) (width : ℚ) (hn : 1 ≤ n) (i : ℕ) :
    hitX n width i =
      plotLeft + bandStep n plotLeft (plotRight width) * ((i : ℚ) + 4/25) := by
  unfold hitX bandX bandStart candleWidth bandwidth
  rw [← bandStep_mul n plotLeft (plotRight width) hn]
  unfold bandPadding
  ring

theorem hitW_eq (n : ℕ) (width : ℚ) :
    hitW n width = bandStep n plotLeft (plotRight width) * (49/50) := by
  unfold hitW candleWidth bandwidth bandPadding
  ring

/-- C2 counterexample: for a single-bar series at container width 250 the
plot area is [60, 190] but the only hit region is [76, 174] - it does not
span the full plot width, 16 pixels are uncovered at each end, so pointer
positions there map to no bar. -/
theorem c2_counterexample :
    hitRects 1 250 = [(76, 98)] ∧
    plotLeft = 60 ∧ plotRight 250 = 190 ∧
    plotLeft < 76 ∧ (76 : ℚ) + 98 < plotRight 250 := by
  have hs : bandStep 1 plotLeft (plotRight 250) = 100 := by
    rw [bandStep_eq 1 plotLeft (plotRight 250) le_rfl]
    norm_num [plotLeft, plotRight, marginLeft, marginRight]
  have hx : hitX 1 250 0 = 76 := by
    rw [hitX_eq 1 250 le_rfl 0, hs]
    norm_num [plotLeft, marginLeft]
  have hw : hitW 1 250 = 98 := by
    rw [hitW_eq, hs]
    norm_num
  refine ⟨?_, by norm_num [plotLeft, marginLeft],
    by norm_num [plotRight, marginRight], by norm_num [plotLeft, marginLeft],
    by norm_num [plotRight, marginRight]⟩
  unfold hitRects
  rw [show List.range 1 = [0] by decide]
  simp [hx, hw]

/-- C2 amended: the hit-testing construction creates exactly n regions, one
per bar, pairwise disjoint, but they do not cover the plot width: each region
has width 0.98 step, adjacent regions are separated by a 0.02 step gap, and
a 0.16 step strip at the left edge of the plot (and a 0.16 step strip at the
right) is covered by no region; for n = 1 the single region is strictly
inside the plot, not spanning it. -/
theorem c2_amended (n : ℕ) (width : ℚ) (hn : 1 ≤ n)
    (hw : plotLeft < plotRight width) :
    (hitRects n width).length = n ∧
    (∀ i j : ℕ, j < n → i < j →
      hitX n width i + hitW n width < hitX n width j) ∧
    plotLeft < hitX n width 0 ∧
    hitX n width (n - 1) + hitW n width < plotRight width := by
  have hs := bandStep_pos n plotLeft (plotRight width) hn hw
  refine ⟨by simp [hitRects], fun i j hj hij => ?_, ?_, ?_⟩
  · rw [hitX_eq n width hn i, hitX_eq n width hn j, hitW_eq]
    have hij2 : (i : ℚ) + 1 ≤ (j : ℚ) := by exact_mod_cast hij
    nlinarith [hs]
  · rw [hitX_eq n width hn 0]
    push_cast
    nlinarith [hs]
  · rw [hitX_eq n width hn (n - 1), hitW_eq]
    have hWs : plotRight width - plotLeft =
        bandStep n plotLeft (plotRight width) * ((n : ℚ) + 3/10) :=
      (bandStep_mul n plotLeft (plotRight width) hn).symm
    rw [Nat.cast_sub hn]
    push_cast
    nlinarith [hs]

/-- C2 witness: the amended statement applied at n = 2, width = 250. -/
theorem c2_amended_witness :
    (hitRects 2 250).length = 2 ∧
    (∀ i j : ℕ, j < 2 → i < j →
      hitX 2 250 i + hitW 2 250 < hitX 2 250 j) ∧
    plotLeft < hitX 2 250 0 ∧
    hitX 2 250 (2 - 1) + hitW 2 250 < plotRight 250 :=
  c2_amended 2 250 (by norm_num)
    (by norm_num [plotLeft, plotRight, marginLeft, marginRight])

theorem foldl_min_mem (l : List ℚ) (a : ℚ) : l.foldl min a ∈ a :: l := by
  induction l generalizing a with
  | nil => simp
  | cons x t ih =>
    rw [List.foldl_cons]
    rcases List.mem_cons.mp (ih (min a x)) with h0 | h0
    · rcases min_choice a x with hc | hc
      · rw [h0, hc]; exact List.mem_cons_self _ _
      · rw [h0, hc]; exact List.mem_cons_of_mem _ (List.mem_cons_self _ _)
    · exact List.mem_cons_of_mem _ (List.mem_cons_of_mem _ h0)

theorem foldl_min_le_init (l : List ℚ) (a : ℚ) : l.foldl min a ≤ a := by
  induction l generalizing a with
  | nil => simp
  | cons x t ih =>
    rw [List.foldl_cons]
    exact le_trans (ih (min a x)) (min_le_left a x)

theorem foldl_min_le (l : List ℚ) (a : ℚ) : ∀ x ∈ l, l.foldl min a ≤ x := by
  induction l generalizing a with
  | nil => intro x hx; cases hx
  | cons y t ih =>
    intro x hx
    rw [List.foldl_cons]
    rcases List.mem_cons.mp hx with h0 | h0
    · rw [h0]
      exact le_trans (foldl_min_le_init t (min a y)) (min_le_right a y)
    · exact ih (min a y) x h0

theorem foldl_max_mem (l : List ℚ) (a : ℚ) : l.foldl max a ∈ a :: l := by
  induction l generalizing a with
  | nil => simp
  | cons x t ih =>
    rw [List.foldl_cons]
    rcases List.mem_cons.mp (ih (max a x)) with h0 | h0
    · rcases max_choice a x with hc | hc
      · rw [h0, hc]; exact List.mem_cons_self _ _
      · rw [h0, hc]; exact List.mem_cons_of_mem _ (List.mem_cons_self _ _)
    · exact List.mem_cons_of_mem _ (List.mem_cons_of_mem _ h0)

theorem foldl_max_ge_init (l : List ℚ) (a : ℚ) : a ≤ l.foldl max a := by
  induction l generalizing a with
  | nil => simp
  | cons x t ih =>
    rw [List.foldl_cons]
    exact le_trans (le_max_left a x) (ih (max a x))

theorem foldl_max_ge (l : List ℚ) (a : ℚ) : ∀ x ∈ l, x ≤ l.foldl max a := by
  induction l generalizing a with
  | nil => intro x hx; cases hx
  | cons y t ih =>
    intro x hx
    rw [List.foldl_cons]
    rcases List.mem_cons.mp hx with h0 | h0
    · rw [h0]
      exact le_trans (le_max_right a y) (foldl_max_ge_init t (max a y))
    · exact ih (max a y) x h0

theorem d3min_go (t : List ℚ) (m : ℚ) :
    t.foldl (fun acc x => match acc with
      | none => some x
      | some m0 => some (min m0 x)) (some m) = some (t.foldl min m) := by
  induction t generalizing m with
  | nil => rfl
  | cons x t ih =>
    rw [List.foldl_cons, List.foldl_cons]
    exact ih (min m x)

theorem d3min_cons (x : ℚ) (t : List ℚ) :
    d3min (x :: t) = some (t.foldl min x) := by
  unfold d3min
  rw [List.foldl_cons]
  exact d3min_go t x

theorem d3max_go (t : List ℚ) (m : ℚ) :
    t.foldl (fun acc x => match acc with
      | none => some x
      | some m0 => some (max m0 x)) (some m) = some (t.foldl max m) := by
  induction t generalizing m with
  | nil => rfl
  | cons x t ih =>
    rw [List.foldl_cons, List.foldl_cons]
    exact ih (max m x)

theorem d3max_cons (x : ℚ) (t : List ℚ) :
    d3max (x :: t) = some (t.foldl max x) := by
  unfold d3max
  rw [List.foldl_cons]
  exact d3max_go t x

/-- C3: for every non-empty bar series the price-scale domain is exactly
[min(low) * 0.98, max(high) * 1.02] - the lower bound is 0.98 times a low
attained in the series and below 0.98 times every low, and dually for the
upper bound. -/
theorem c3_price_domain (data : List OHLCVItem) (h : data ≠ []) :
    ∃ lo hi,
      priceDomain data = some (lo * (98/100), hi * (102/100)) ∧
      lo ∈ data.map (fun d => d.low) ∧
      (∀ x ∈ data.map (fun d => d.low), lo ≤ x) ∧
      hi ∈ data.map (fun d => d.high) ∧
      (∀ x ∈ data.map (fun d => d.high), x ≤ hi) := by
  cases data with
  | nil => exact absurd rfl h
  | cons b t =>
    refine ⟨(t.map (fun d => d.low)).foldl min b.low,
            (t.map (fun d => d.high)).foldl max b.high, ?_, ?_, ?_, ?_, ?_⟩
    · unfold priceDomain
      rw [List.map_cons, List.map_cons, d3min_cons, d3max_cons]
    · rw [List.map_cons]
      exact foldl_min_mem _ _
    · intro x hx
      rw [List.map_cons] at hx
      rcases List.mem_cons.mp hx with h0 | h0
      · rw [h0]
        exact foldl_min_le_init _ _
      · exact foldl_min_le _ _ x h0
    · rw [List.map_cons]
      exact foldl_max_mem _ _
    · intro x hx
      rw [List.map_cons] at hx
      rcases List.mem_cons.mp hx with h0 | h0
      · rw [h0]
        exact foldl_max_ge_init _ _
      · exact foldl_max_ge _ _ x h0

/-- C3 witness: the spec's two-bar example series has price domain
[99 * 0.98, 106 * 1.02] = [97.02, 108.12]. -/
theorem c3_witness :
    exSeries ≠ [] ∧
    priceDomain exSeries = some (4851/50, 2703/25) ∧
    (∃ lo hi,
      priceDomain exSeries = some (lo * (98/100), hi * (102/100)) ∧
      lo ∈ exSeries.map (fun d => d.low) ∧
      (∀ x ∈ exSeries.map (fun d => d.low), lo ≤ x) ∧
      hi ∈ exSeries.map (fun d => d.high) ∧
      (∀ x ∈ exSeries.map (fun d => d.high), x ≤ hi)) :=
  ⟨by simp [exSeries],
   by norm_num [priceDomain, exSeries, exBar1, exBar2, d3min_cons, d3max_cons,
     List.foldl_cons, List.foldl_nil, min_def, max_def],
   c3_price_domain exSeries (by simp [exSeries])⟩

theorem handleDateClick_pos (ticker : String) (news : List NewsItem)
    (date : String)
    (hm : 0 < (news.filter fun n => n.pubDate == date).length) :
    handleDateClick ticker news date =
      { state := ⟨some date, news.filter fun n => n.pubDate == date, false⟩,
        requests := [] } := by
  simp [handleDateClick, hm]

theorem handleDateClick_neg (ticker : String) (news : List NewsItem)
    (date : String)
    (hm : ¬ 0 < (news.filter fun n => n.pubDate == date).length) :
    handleDateClick ticker news date =
      { state := ⟨some date, [], true⟩, requests := [(ticker, date)] } := by
  simp only [handleDateClick]
  rw [if_neg hm]

/-- C4: for every date selection, if some delivered news item has the clicked
pubDate then the matched items are surfaced with an empty request list (zero
network calls) and loading ends at once; if no item matches then exactly one
fallback request keyed by (ticker, date) is issued; either way the selected
date is recorded. -/
theorem c4_news_resolution (ticker : String) (news : List NewsItem)
    (date : String) :
    ((∃ n ∈ news, n.pubDate = date) →
      (handleDateClick ticker news date).requests = [] ∧
      (handleDateClick ticker news date).state.selectedNews =
        news.filter (fun n => n.pubDate == date) ∧
      (handleDateClick ticker news date).state.loadingNews = false) ∧
    ((∀ n ∈ news, n.pubDate ≠ date) →
      (handleDateClick ticker news date).requests = [(ticker, date)] ∧
      (handleDateClick ticker news date).state.loadingNews = true) ∧
    (handleDateClick ticker news date).state.selectedDate = some date := by
  by_cases hm : 0 < (news.filter fun n => n.pubDate == date).length
  · rw [handleDateClick_pos ticker news date hm]
    refine ⟨fun _ => ⟨rfl, rfl, rfl⟩, fun hnone => ?_, rfl⟩
    exfalso
    rw [List.length_pos] at hm
    obtain ⟨n, hn⟩ := List.exists_mem_of_ne_nil _ hm
    have h2 := List.mem_filter.mp hn
    exact hnone n h2.1 (by simpa using h2.2)
  · rw [handleDateClick_neg ticker news date hm]
    refine ⟨fun hex => ?_, fun _ => ⟨rfl, rfl⟩, rfl⟩
    exfalso
    obtain ⟨n, hn, hpd⟩ := hex
    exact hm (List.length_pos.mpr
      (List.ne_nil_of_mem (List.mem_filter.mpr ⟨hn, by simp [hpd]⟩)))

/-- C4 witness: with the delivered list [newsA], clicking 2024-01-02 (present)
issues no request and surfaces the match; clicking 2024-01-03 (absent) issues
exactly the one request ("AAPL", "2024-01-03"). -/
theorem c4_witness :
    ((handleDateClick "AAPL" [newsA] "2024-01-02").requests = [] ∧
     (handleDateClick "AAPL" [newsA] "2024-01-02").state.selectedNews =
       [newsA].filter (fun n => n.pubDate == "2024-01-02") ∧
     (handleDateClick "AAPL" [newsA] "2024-01-02").state.loadingNews = false) ∧
    (handleDateClick "AAPL" [newsA] "2024-01-03").requests =
      [("AAPL", "2024-01-03")] :=
  ⟨(c4_news_resolution "AAPL" [newsA] "2024-01-02").1 (by decide),
   ((c4_news_resolution "AAPL" [newsA] "2024-01-03").2.1 (by decide)).1⟩

/-- C5: the claimed last-selection-wins guarantee fails in the code. With the
delivered news [newsB] (dated 2024-01-03), clicking 2024-01-02 issues a
fallback request, then clicking 2024-01-03 surfaces [newsB] from the local
index; when the outstanding request for the older selection then completes,
its success branch stores its items unconditionally, so the displayed list
becomes [newsA] while the selected date is still 2024-01-03 - the stale
response overwrote the newer selection's result. -/
theorem c5_stale_response_overwrites :
    newsRun "AAPL" [newsB] ⟨none, [], false⟩
      [NewsEvent.click "2024-01-02", NewsEvent.click "2024-01-03"] =
      ⟨some "2024-01-03", [newsB], false⟩ ∧
    newsRun "AAPL" [newsB] ⟨none, [], false⟩
      [NewsEvent.click "2024-01-02", NewsEvent.click "2024-01-03",
       NewsEvent.response "2024-01-02" true [newsA]] =
      ⟨some "2024-01-03", [newsA], false⟩ ∧
    newsA ≠ newsB := by
  refine ⟨by decide, by decide, by decide⟩

/-- C6 counterexample: a successful response whose only bar has high 95 below
low 99 is stored wholesale - the series is not rejected, no error state is
surfaced, and the chart renders it. -/
theorem c6_counterexample :
    badBar.high < badBar.low ∧
    (fetchCycle loadingState badResponse).data = [badBar] ∧
    (fetchCycle loadingState badResponse).error = "" ∧
    rendersChart (fetchCycle loadingState badResponse) = true := by
  refine ⟨by decide, rfl, rfl, by decide⟩

/-- C6 amended: the fetch path performs no validation whatsoever: every
response flagged success is stored in full - malformed bars and unsorted
times included - with an empty error, and a non-empty stored series is
rendered. -/
theorem c6_amended (s : ChartState) (r : FetchResult) (h : r.success = true) :
    (fetchCycle s r).data = r.data ∧
    (fetchCycle s r).news = r.news ∧
    (fetchCycle s r).error = "" ∧
    (r.data ≠ [] → rendersChart (fetchCycle s r) = true) := by
  unfold fetchCycle applyFetchResult fetchStart
  rw [if_pos h]
  refine ⟨rfl, rfl, rfl, fun hne => ?_⟩
  simp [rendersChart, List.isEmpty_iff, hne]

/-- C6 witness: the amended statement applied to the malformed-bar response. -/
theorem c6_amended_witness :
    badResponse.success = true ∧
    (fetchCycle loadingState badResponse).data = badResponse.data ∧
    rendersChart (fetchCycle loadingState badResponse) = true :=
  ⟨rfl, (c6_amended loadingState badResponse rfl).1,
   (c6_amended loadingState badResponse rfl).2.2.2 (by decide)⟩

/-- C7 counterexample: with the bar series unchanged, a width change alone
triggers no full redraw (there is no resize trigger on the draw effect),
while a change of the news list alone - through the click-handler identity in
the dependency array - does trigger one. Both directions of the claimed
trigger set fail. -/
theorem c7_counterexample :
    readyStateResized.width ≠ readyState.width ∧
    readyStateResized.data = readyState.data ∧
    fullRedrawTriggered readyState readyStateResized = false ∧
    readyStateNewNews.data = readyState.data ∧
    readyStateNewNews.width = readyState.width ∧
    fullRedrawTriggered readyState readyStateNewNews = true := by
  refine ⟨by decide, rfl, by decide, rfl, rfl, by decide⟩

/-- C7 amended: the full clear-and-redraw re-runs exactly when the data
array, the news array, or the ticker changed (the latter two through the
recreated click handler) and the target state actually draws (not loading,
no error, non-empty data); the viewport width does not participate in the
trigger. -/
theorem c7_amended (s s2 : ChartState) :
    fullRedrawTriggered s s2 = true ↔
      (s2.loading = false ∧ s2.error = "" ∧ s2.data ≠ [] ∧
       (s.data ≠ s2.data ∨ s.news ≠ s2.news ∨ s.ticker ≠ s2.ticker)) := by
  by_cases h1 : s.data = s2.data <;>
  by_cases h2 : s.news = s2.news <;>
  by_cases h3 : s.ticker = s2.ticker <;>
  by_cases h4 : s2.loading = true <;>
  by_cases h5 : s2.error = "" <;>
  by_cases h6 : s2.data = [] <;>
  simp [fullRedrawTriggered, rendersChart, drawDeps, Prod.ext_iff,
    List.isEmpty_iff, h1, h2, h3, h4, h5, h6]

/-- C8 counterexample: replacing the bar series by a successful fetch leaves
the previously hovered bar and the previously selected date in place - the
interaction state is not reset to empty. -/
theorem c8_counterexample :
    (fetchCycle interactedState replacementResponse).data ≠
      interactedState.data ∧
    (fetchCycle interactedState replacementResponse).hoveredData =
      some exBar1 ∧
    (fetchCycle interactedState replacementResponse).selectedDate =
      some "2024-01-02" := by
  refine ⟨by decide, rfl, rfl⟩

/-- C8 amended: on a bar-series replacement the crosshair is cleared (the
full redraw rebuilds it hidden), but hoveredData, selectedDate and
selectedNews keep their pre-replacement values - only data and news are
replaced. -/
theorem c8_amended (s : ChartState) (r : FetchResult) (h : r.success = true) :
    (fetchCycle s r).hoveredData = s.hoveredData ∧
    (fetchCycle s r).selectedDate = s.selectedDate ∧
    (fetchCycle s r).selectedNews = s.selectedNews ∧
    (fetchCycle s r).data = r.data ∧
    initialCrosshair.opacity = 0 := by
  unfold fetchCycle applyFetchResult fetchStart
  rw [if_pos h]
  exact ⟨rfl, rfl, rfl, rfl, rfl⟩

/-- C8 witness: the amended statement applied to the interacted state and the
series-replacing response. -/
theorem c8_amended_witness :
    replacementResponse.success = true ∧
    ((fetchCycle interactedState replacementResponse).hoveredData =
      interactedState.hoveredData ∧
     (fetchCycle interactedState replacementResponse).selectedDate =
      interactedState.selectedDate ∧
     (fetchCycle interactedState replacementResponse).selectedNews =
      interactedState.selectedNews ∧
     (fetchCycle interactedState replacementResponse).data =
      replacementResponse.data ∧
     initialCrosshair.opacity = 0) :=
  ⟨rfl, c8_amended interactedState replacementResponse rfl⟩

theorem mergeNews_eq (prev batch : List PortfolioNewsItem) :
    mergeNews prev batch =
      if (batch.filter fun n =>
            !((prev.map fun m => m.id).contains n.id)).length = 0
      then prev
      else (prev ++ batch.filter fun n =>
             !((prev.map fun m => m.id).contains n.id)).mergeSort
             fun a b => decide (b.pubDate.data ≤ a.pubDate.data) := rfl

/-- C9 counterexample: merging a batch that internally repeats an id into the
empty accumulated list keeps both copies - the merge only deduplicates
against the previous list, not within the incoming batch, so the no-two-
items-share-an-id invariant is not preserved. -/
theorem c9_counterexample :
    ¬ ((mergeNews [] [pnDup1, pnDup2]).map fun n => n.id).Nodup := by
  intro hnd
  have hm : mergeNews [] [pnDup1, pnDup2] =
      (([] ++ [pnDup1, pnDup2]).mergeSort fun a b =>
        decide (b.pubDate.data ≤ a.pubDate.data)) := by
    rw [mergeNews_eq]
    rfl
  rw [hm] at hnd
  have hperm := (List.mergeSort_perm ([] ++ [pnDup1, pnDup2])
    fun a b => decide (b.pubDate.data ≤ a.pubDate.data)).map fun n => n.id
  have hnd2 := hperm.nodup hnd
  simp [pnDup1, pnDup2] at hnd2

/-- C9 amended: provided the incoming batch itself carries pairwise distinct
ids, the merge preserves distinctness of ids; it preserves descending
pubDate order; and a batch consisting solely of already-present ids returns
the previous list unchanged. -/
theorem c9_amended (prev batch : List PortfolioNewsItem)
    (h1 : (prev.map fun n => n.id).Nodup)
    (h2 : (batch.map fun n => n.id).Nodup)
    (h3 : SortedByDateDesc prev) :
    ((mergeNews prev batch).map fun n => n.id).Nodup ∧
    SortedByDateDesc (mergeNews prev batch) ∧
    ((∀ n ∈ batch, n.id ∈ prev.map fun m => m.id) →
      mergeNews prev batch = prev) := by
  by_cases hlen : (batch.filter fun n =>
      !((prev.map fun m => m.id).contains n.id)).length = 0
  · rw [mergeNews_eq, if_pos hlen]
    exact ⟨h1, h3, fun _ => rfl⟩
  · rw [mergeNews_eq, if_neg hlen]
    set unique := batch.filter fun n =>
      !((prev.map fun m => m.id).contains n.id) with hu
    set le := fun a b : PortfolioNewsItem =>
      decide (b.pubDate.data ≤ a.pubDate.data) with hle
    refine ⟨?_, ?_, ?_⟩
    · have hperm : ((prev ++ unique).mergeSort le).Perm (prev ++ unique) :=
        List.mergeSort_perm _ _
      have hpermmap : (((prev ++ unique).mergeSort le).map fun n => n.id).Perm
          ((prev ++ unique).map fun n => n.id) := hperm.map _
      apply hpermmap.symm.nodup
      rw [List.map_append, List.nodup_append]
      refine ⟨h1, ?_, ?_⟩
      · have hsub : (unique.map fun n => n.id).Sublist
            (batch.map fun n => n.id) := (List.filter_sublist batch).map _
        exact h2.sublist hsub
      · intro a ha hb
        obtain ⟨m, hm, hma⟩ := List.mem_map.mp hb
        have hmf := List.mem_filter.mp hm
        have hnc : ¬ ((prev.map fun n => n.id).contains m.id = true) := by
          simpa using hmf.2
        apply hnc
        simp only [List.contains_iff_exists_mem_beq]
        exact ⟨m.id, hma ▸ ha, by simp⟩
    · have htrans : ∀ a b c, le a b = true → le b c = true →
          le a c = true := by
        intro a b c hab hbc
        simp only [hle, decide_eq_true_eq] at hab hbc ⊢
        exact le_trans hbc hab
      have htotal : ∀ a b, (le a b || le b a) = true := by
        intro a b
        simp only [hle, Bool.or_eq_true, decide_eq_true_eq]
        exact le_total b.pubDate.data a.pubDate.data
      have hs := List.sorted_mergeSort htrans htotal (prev ++ unique)
      unfold SortedByDateDesc
      refine hs.imp ?_
      intro a b hab
      simpa [hle] using hab
    · intro hall
      exfalso
      apply hlen
      have hnil : (batch.filter fun n =>
          !((prev.map fun m => m.id).contains n.id)) = [] := by
        apply List.filter_eq_nil_iff.mpr
        intro n hn
        simp only [Bool.not_eq_true', Bool.not_eq_false]
        simp only [List.contains_iff_exists_mem_beq]
        exact ⟨n.id, hall n hn, by simp⟩
      rw [hu, hnil]
      rfl

/-- C9 witness: the amended statement applied to the singleton accumulated
list [pnOld] and the batch [pnDup1] with a fresh id. -/
theorem c9_amended_witness :
    (([pnOld].map fun n => n.id).Nodup) ∧
    (([pnDup1].map fun n => n.id).Nodup) ∧
    SortedByDateDesc [pnOld] ∧
    (((mergeNews [pnOld] [pnDup1]).map fun n => n.id).Nodup ∧
     SortedByDateDesc (mergeNews [pnOld] [pnDup1]) ∧
     ((∀ n ∈ [pnDup1], n.id ∈ [pnOld].map fun m => m.id) →
       mergeNews [pnOld] [pnDup1] = [pnOld])) :=
  ⟨by decide, by decide, by simp [SortedByDateDesc],
   c9_amended [pnOld] [pnDup1] (by decide) (by decide)
     (by simp [SortedByDateDesc])⟩
